import Mathlib

/-!
Shallow embedding of the `BoringCache` class (src/index.ts, current revision):
a string-keyed cache whose slots are either a scalar `CacheEntry` or an array
of `CacheEntry`, with millisecond expiration timestamps, a debounced
write-back timer, and a `save` sweep that persists the data to a file.

Modelling choices:
* the dictionary `this.data` is a function `String → Option (Slot α)`
  (JS object with unique keys);
* timestamps (`Date.now()`) and ttl values are `Int`; `ttl = Infinity` is
  `Option.none`, so `expires` is `Option Int` with `none` for
  `undefined`;
* JS truthiness of `entry.expires` is `expires ≠ undefined ∧ expires ≠ 0`,
  reflected literally in the guard functions below;
* the `setImmediate` debounce timer is a count `pending` of live scheduled
  timers (`scheduleWrite` creates one unless one exists, `save` cancels);
* the backing file is `file : Option (Dict α)`: `none` until something is
  written, `some d` once `FS.outputJSONSync` has written the mapping `d`
  (serialization is modelled as the identity on mappings).
-/

namespace BoringCache

/-- `interface CacheEntry { value; expires?: number }`. -/
structure CacheEntry (α : Type) where
  value : α
  expires : Option Int
deriving DecidableEq

/-- A slot of `this.data`: either a single entry or an array of entries. -/
inductive Slot (α : Type) where
  | scalar (e : CacheEntry α)
  | array (items : List (CacheEntry α))
deriving DecidableEq

/-- `Dict<CacheEntry | CacheEntry[]>` as a total function with `none` for
absent keys. -/
def Dict (α : Type) : Type := String → Option (Slot α)

/-- The empty JS object `{}`. -/
def emptyDict (α : Type) : Dict α := fun _ => none

/-- JS property assignment `d[k] = s` (or `delete d[k]` for `none`). -/
def dset {α : Type} (d : Dict α) (k : String) (s : Option (Slot α)) : Dict α :=
  fun k2 => if k2 = k then s else d k2

/-- `ttl === Infinity ? undefined : Date.now() + ttl`. -/
def mkExpires (ttl : Option Int) (now : Int) : Option Int :=
  ttl.map (fun t => now + t)

/-- The read guard `!item.expires || item.expires > now` (JS truthiness:
`0` and `undefined` are falsy). -/
def liveAt (expires : Option Int) (now : Int) : Bool :=
  match expires with
  | none => true
  | some x => x == 0 || decide (now < x)

/-- The `save` sweep deletion test for scalar slots:
`entry.expires && entry.expires < now`. -/
def staleScalarAt (expires : Option Int) (now : Int) : Bool :=
  match expires with
  | none => false
  | some x => !(x == 0) && decide (x < now)

/-- In-memory state of a `BoringCache` instance plus the backing file. -/
structure CState (α : Type) where
  data : Dict α
  pending : Nat
  file : Option (Dict α)

/-- `scheduleWrite()`: if a timer is pending do nothing, otherwise create
one. -/
def scheduleWrite {α : Type} (st : CState α) : CState α :=
  if st.pending = 0 then CState.mk st.data 1 st.file else st

/-- The body of the `save()` sweep loop: filter each array slot by the read
guard and drop it when it empties; delete scalar slots whose `expires` is
truthy and `< now`. -/
def sweep {α : Type} (d : Dict α) (now : Int) : Dict α := fun k =>
  match d k with
  | none => none
  | some (Slot.scalar e) =>
      if staleScalarAt e.expires now then none else some (Slot.scalar e)
  | some (Slot.array items) =>
      let items2 := items.filter (fun item => liveAt item.expires now)
      if items2.isEmpty then none else some (Slot.array items2)

/-- `save()`: cancel the pending timer, sweep `this.data` in place and write
the result to the file with `FS.outputJSONSync`. -/
def save {α : Type} (st : CState α) (now : Int) : CState α :=
  CState.mk (sweep st.data now) 0 (some (sweep st.data now))

/-- `get(key)`: `undefined` on arrays, else the value if the entry is live. -/
def get {α : Type} (st : CState α) (k : String) (now : Int) : Option α :=
  match st.data k with
  | some (Slot.array _) => none
  | some (Slot.scalar e) => if liveAt e.expires now then some e.value else none
  | none => none

/-- The `get` method as a state transformer: its body reads `this.data`
and never assigns, so the state component is returned unchanged. -/
def getOp {α : Type} (st : CState α) (k : String) (now : Int) :
    Option α × CState α :=
  (get st k now, st)

/-- `private _set`: store a scalar entry with the computed expiration. -/
def _set {α : Type} (st : CState α) (k : String) (v : α) (ttl : Option Int)
    (now : Int) : CState α :=
  CState.mk (dset st.data k (some (Slot.scalar (CacheEntry.mk v (mkExpires ttl now)))))
    st.pending st.file

/-- `set(key, value, ttl)`: `_set` then `scheduleWrite`. -/
def set {α : Type} (st : CState α) (k : String) (v : α) (ttl : Option Int)
    (now : Int) : CState α :=
  scheduleWrite (_set st k v ttl now)

/-- `list(key)`: `[]` unless the slot is an array, else the values of the
live items. -/
def list {α : Type} (st : CState α) (k : String) (now : Int) : List α :=
  match st.data k with
  | some (Slot.array items) =>
      (items.filter (fun item => liveAt item.expires now)).map
        (fun item => item.value)
  | _ => []

/-- The `list` method as a state transformer: its body reads `this.data`
and never assigns, so the state component is returned unchanged. -/
def listOp {α : Type} (st : CState α) (k : String) (now : Int) :
    List α × CState α :=
  (list st k now, st)

/-- `push(key, value, ttl)`: append a new entry to the existing array (an
absent or scalar slot counts as `[]`), then `scheduleWrite`. -/
def push {α : Type} (st : CState α) (k : String) (v : α) (ttl : Option Int)
    (now : Int) : CState α :=
  scheduleWrite (CState.mk
    (dset st.data k (some (Slot.array
      ((match st.data k with
        | some (Slot.array items) => items
        | _ => []) ++ [CacheEntry.mk v (mkExpires ttl now)]))))
    st.pending st.file)

/-- The `value` argument of `pull`: a literal (compared with `===`) or a
predicate function (`typeof value === 'function'`). -/
inductive Matcher (α : Type) where
  | lit (v : α)
  | fn (p : α → Bool)

/-- Dispatch of a `Matcher` on a candidate value. -/
def matchValue {α : Type} [DecidableEq α] (m : Matcher α) (v : α) : Bool :=
  match m with
  | Matcher.lit w => v == w
  | Matcher.fn p => p v

/-- `pull(key, value)`: no-op unless the slot is an array, else keep exactly
the entries whose value does not match, then `scheduleWrite`. -/
def pull {α : Type} [DecidableEq α] (st : CState α) (k : String)
    (m : Matcher α) : CState α :=
  match st.data k with
  | some (Slot.array items) =>
      scheduleWrite (CState.mk
        (dset st.data k (some (Slot.array
          (items.filter (fun item => !(matchValue m item.value))))))
        st.pending st.file)
  | _ => st

/-- `delete(key)`. -/
def delete {α : Type} (st : CState α) (k : String) : CState α :=
  scheduleWrite (CState.mk (dset st.data k none) st.pending st.file)

/-- `clear()`. -/
def clear {α : Type} (st : CState α) : CState α :=
  scheduleWrite (CState.mk (emptyDict α) st.pending st.file)

/-- A fresh instance before the constructor body runs: empty data, no
timer, nothing written (the constructor path where the file is absent). -/
def initState (α : Type) : CState α :=
  CState.mk (emptyDict α) 0 none

/-- The constructor loop `for ([key, value] of Object.entries(data))
this._set(key, value, ttl)` seeding the empty mapping. -/
def seedData {α : Type} (entries : List (String × α)) (ttl : Option Int)
    (now : Int) : Dict α :=
  entries.foldl
    (fun d kv => dset d kv.1 (some (Slot.scalar (CacheEntry.mk kv.2 (mkExpires ttl now)))))
    (emptyDict α)

/-- The binding a sequence of JS property assignments leaves at a key: the
last pair in `entries` with that key wins. -/
def lookupLast {α : Type} (entries : List (String × α)) (k : String) :
    Option α :=
  match entries with
  | [] => none
  | kv :: rest =>
      match lookupLast rest k with
      | some v => some v
      | none => if k = kv.1 then some kv.2 else none

/-- The constructor branch for a missing backing file: start empty, seed
from the initial data with the default ttl, then `this.save()`. -/
def newConstruct {α : Type} (entries : List (String × α)) (ttl : Option Int)
    (now : Int) : CState α :=
  save (CState.mk (seedData entries ttl now) 0 none) now

/-- The constructor branch for an existing backing file: the parsed mapping
is installed verbatim, no timer pending, nothing written yet. -/
def loadConstruct {α : Type} (d : Dict α) : CState α :=
  CState.mk d 0 none

/-- The whole constructor over the outcome of
`JSON.parse(FS.readFileSync(path))`: a parse error propagates (there is no
try/catch), a parsed mapping is loaded verbatim. -/
def constructFromFile {α : Type} (r : Except String (Dict α)) :
    Except String (CState α) :=
  match r with
  | Except.error e => Except.error e
  | Except.ok d => Except.ok (loadConstruct d)

/-- Spec-side notion for C2: an entry whose `expires` field is present and
`≤ now` (the spec's "entry with expires <= now at save time"). -/
def entryExpiredLE {α : Type} (now : Int) (e : CacheEntry α) : Prop :=
  ∃ x, e.expires = some x ∧ x ≤ now

/-- Spec-side statement of C2's sweep-correctness for a persisted mapping:
no scalar entry and no array element has `expires ≤ now`, and no array slot
is empty. -/
def specSweepClean {α : Type} (d : Dict α) (now : Int) : Prop :=
  ∀ k,
    (∀ e, d k = some (Slot.scalar e) → ¬ entryExpiredLE now e) ∧
    (∀ items, d k = some (Slot.array items) →
      items ≠ [] ∧ ∀ e ∈ items, ¬ entryExpiredLE now e)

/-- A mapping holding one scalar entry whose expiration equals the sweep
time. -/
def c2CexDict : Dict Int := fun k =>
  if k = "k" then some (Slot.scalar (CacheEntry.mk 0 (some 5))) else none

/-- Spec-side statement of C3 as written: an entry written with a finite
ttl is absent from `get` at every query time `q ≥ expires = w + t`. -/
def specTtlExpiry : Prop :=
  ∀ (v w t q : Int), w + t ≤ q →
    get (set (initState Int) "k" v (some t) w) "k" q = none

/-- Public operations, for statements quantifying over call sequences. -/
inductive Op (α : Type) where
  | opGet (k : String) (now : Int)
  | opSet (k : String) (v : α) (ttl : Option Int) (now : Int)
  | opList (k : String) (now : Int)
  | opPush (k : String) (v : α) (ttl : Option Int) (now : Int)
  | opPull (k : String) (m : Matcher α)
  | opDelete (k : String)
  | opClear
  | opSave (now : Int)

/-- State transition of one public operation. -/
def step {α : Type} [DecidableEq α] (st : CState α) (op : Op α) : CState α :=
  match op with
  | Op.opGet k now => (getOp st k now).2
  | Op.opSet k v ttl now => set st k v ttl now
  | Op.opList k now => (listOp st k now).2
  | Op.opPush k v ttl now => push st k v ttl now
  | Op.opPull k m => pull st k m
  | Op.opDelete k => delete st k
  | Op.opClear => clear st
  | Op.opSave now => save st now

/-- Run a sequence of public operations. -/
def run {α : Type} [DecidableEq α] (st : CState α) (ops : List (Op α)) :
    CState α :=
  ops.foldl step st

end BoringCache

namespace BoringCache

theorem scheduleWrite_data {α : Type} (st : CState α) :
    (scheduleWrite st).data = st.data := by
  unfold scheduleWrite
  split <;> rfl

theorem scheduleWrite_file {α : Type} (st : CState α) :
    (scheduleWrite st).file = st.file := by
  unfold scheduleWrite
  split <;> rfl

theorem dset_same {α : Type} (d : Dict α) (k : String) (s : Option (Slot α)) :
    dset d k s k = s := by
  simp [dset]

theorem dset_other {α : Type} (d : Dict α) (k k2 : String)
    (s : Option (Slot α)) (h : k2 ≠ k) : dset d k s k2 = d k2 := by
  simp [dset, h]

/-- C1: for a key holding an array, `pull(key, matcher)` keeps exactly the
entries whose value does not match the matcher (literal equality or
predicate), in their original order, and leaves every other key unchanged;
in particular `push('nums', 1); push('nums', 2); pull('nums', 1)` leaves
`list('nums') = [2]`. -/
theorem c1_pull_removes_matching :
    (∀ (st : CState Int) (k : String) (m : Matcher Int)
        (items : List (CacheEntry Int)),
      st.data k = some (Slot.array items) →
        (pull st k m).data k =
          some (Slot.array
            (items.filter (fun item => !(matchValue m item.value)))) ∧
        ∀ k2, k2 ≠ k → (pull st k m).data k2 = st.data k2) ∧
    (∀ t1 t2 t3 : Int,
      list
        (pull
          (push (push (initState Int) "nums" 1 none t1) "nums" 2 none t2)
          "nums" (Matcher.lit 1))
        "nums" t3 = [2]) := by
  constructor
  · intro st k m items h
    constructor
    · simp [pull, h, scheduleWrite_data, dset_same]
    · intro k2 hk
      simp [pull, h, scheduleWrite_data, dset_other _ _ _ _ hk]
  · intro t1 t2 t3
    rfl

theorem c1_witness :
    (pull (push (initState Int) "nums" (5 : Int) none 0) "nums"
      (Matcher.lit 5)).data "nums" = some (Slot.array []) := by
  have h := (c1_pull_removes_matching.1
    (push (initState Int) "nums" (5 : Int) none 0) "nums" (Matcher.lit 5)
    [CacheEntry.mk 5 none] (by rfl)).1
  simpa using h

/-- C4: `get` on a key holding an array returns absent, and `list` on a key
that is absent or holds a scalar entry returns the empty sequence. -/
theorem c4_shape_disjointness :
    ∀ (st : CState Int) (k : String) (now : Int),
      (∀ items, st.data k = some (Slot.array items) → get st k now = none) ∧
      (∀ e, st.data k = some (Slot.scalar e) → list st k now = []) ∧
      (st.data k = none → list st k now = []) := by
  intro st k now
  refine ⟨?_, ?_, ?_⟩
  · intro items h
    simp [get, h]
  · intro e h
    simp [list, h]
  · intro h
    simp [list, h]

theorem c4_witness :
    get (push (initState Int) "k" (1 : Int) none 0) "k" 0 = none ∧
    list (set (initState Int) "k" (1 : Int) none 0) "k" 0 = [] ∧
    list (initState Int) "k" 0 = [] :=
  ⟨(c4_shape_disjointness _ "k" 0).1 [CacheEntry.mk 1 none] rfl,
   (c4_shape_disjointness _ "k" 0).2.1 (CacheEntry.mk 1 none) rfl,
   (c4_shape_disjointness (initState Int) "k" 0).2.2 rfl⟩

theorem liveAt_some_iff {x now : Int} :
    liveAt (some x) now = true ↔ (x = 0 ∨ now < x) := by
  simp [liveAt]

theorem liveAt_mono {e : Option Int} {n t : Int} (h : n ≤ t)
    (ht : liveAt e t = true) : liveAt e n = true := by
  cases e with
  | none => simp [liveAt]
  | some x =>
      rw [liveAt_some_iff] at ht ⊢
      omega

theorem staleScalarAt_false_iff {x now : Int} :
    staleScalarAt (some x) now = false ↔ (x = 0 ∨ now ≤ x) := by
  simp [staleScalarAt]
  omega

/-- C2: as stated the claim fails: a scalar entry whose `expires` equals
the sweep time survives `save` (the scalar branch deletes only when
`expires < now`), yet `expires ≤ now`. -/
theorem c2_counterexample : ¬ specSweepClean (sweep c2CexDict 5) 5 := by
  intro h
  have h2 := (h "k").1 (CacheEntry.mk 0 (some 5)) (by rfl)
  exact h2 ⟨5, rfl, le_refl 5⟩

/-- C2 (amended): `save` writes the swept mapping to the file; in the swept
mapping every scalar entry has `expires` absent, zero, or `≥ now`, every
array element has `expires` absent, zero, or `> now`, and no array slot is
empty. -/
theorem c2_sweep_bounds :
    ∀ (st : CState Int) (now : Int),
      (save st now).file = some (sweep st.data now) ∧
      ∀ k,
        (∀ e, sweep st.data now k = some (Slot.scalar e) →
          ∀ x, e.expires = some x → x = 0 ∨ now ≤ x) ∧
        (∀ items, sweep st.data now k = some (Slot.array items) →
          items ≠ [] ∧
          ∀ e, e ∈ items → ∀ x, e.expires = some x → x = 0 ∨ now < x) := by
  intro st now
  refine ⟨rfl, fun k => ⟨?_, ?_⟩⟩
  · intro e he x hx
    cases hd : st.data k with
    | none => simp [sweep, hd] at he
    | some s =>
        cases s with
        | scalar e0 =>
            by_cases hs : staleScalarAt e0.expires now = true
            · simp [sweep, hd, hs] at he
            · rw [Bool.not_eq_true] at hs
              simp [sweep, hd, hs] at he
              subst he
              rw [hx] at hs
              exact staleScalarAt_false_iff.mp hs
        | array items => simp [sweep, hd] at he
  · intro items hi
    cases hd : st.data k with
    | none => simp [sweep, hd] at hi
    | some s =>
        cases s with
        | scalar e0 =>
            by_cases hs : staleScalarAt e0.expires now = true <;>
              simp [sweep, hd, hs] at hi
        | array items0 =>
            by_cases he : (items0.filter
                (fun item => liveAt item.expires now)).isEmpty = true
            · simp [sweep, hd, he] at hi
            · rw [Bool.not_eq_true] at he
              simp [sweep, hd, he] at hi
              subst hi
              refine ⟨by simpa [List.isEmpty_iff] using he, ?_⟩
              intro e hmem x hx
              have hlive := List.of_mem_filter hmem
              rw [hx] at hlive
              exact liveAt_some_iff.mp hlive

theorem c2_witness :
    (save (CState.mk c2CexDict 0 none) 5).file = some (sweep c2CexDict 5) ∧
    ((5 : Int) = 0 ∨ (5 : Int) ≤ 5) :=
  ⟨(c2_sweep_bounds (CState.mk c2CexDict 0 none) 5).1,
   ((c2_sweep_bounds (CState.mk c2CexDict 0 none) 5).2 "k").1
     (CacheEntry.mk 0 (some 5)) (by rfl) 5 rfl⟩

theorem get_sweep_eq {α : Type} (st1 st2 : CState α) (now t : Int)
    (h : now ≤ t) (hd : st1.data = sweep st2.data now) (k : String) :
    get st1 k t = get st2 k t := by
  unfold get
  rw [hd]
  cases hk : st2.data k with
  | none => simp [sweep, hk]
  | some s =>
      cases s with
      | scalar e =>
          by_cases hs : staleScalarAt e.expires now = true
          · simp only [sweep, hk, hs, if_true]
            cases he : e.expires with
            | none => simp [staleScalarAt, he] at hs
            | some x =>
                have hx : ¬(x = 0) ∧ x < now := by
                  simpa [staleScalarAt, he] using hs
                have hl : liveAt (some x) t = false := by
                  rw [Bool.eq_false_iff, Ne, liveAt_some_iff]
                  omega
                simp [hl]
          · rw [Bool.not_eq_true] at hs
            simp [sweep, hk, hs]
      | array items =>
          by_cases he : (items.filter
              (fun item => liveAt item.expires now)).isEmpty = true
          · simp [sweep, hk, he]
          · rw [Bool.not_eq_true] at he
            simp [sweep, hk, he]

theorem list_sweep_eq {α : Type} (st1 st2 : CState α) (now t : Int)
    (h : now ≤ t) (hd : st1.data = sweep st2.data now) (k : String) :
    list st1 k t = list st2 k t := by
  unfold list
  rw [hd]
  cases hk : st2.data k with
  | none => simp [sweep, hk]
  | some s =>
      cases s with
      | scalar e =>
          by_cases hs : staleScalarAt e.expires now = true
          · simp [sweep, hk, hs]
          · rw [Bool.not_eq_true] at hs
            simp [sweep, hk, hs]
      | array items =>
          by_cases he : (items.filter
              (fun item => liveAt item.expires now)).isEmpty = true
          · simp only [sweep, hk, he, if_true]
            have hnil : items.filter (fun item => liveAt item.expires t) = [] := by
              rw [List.filter_eq_nil_iff]
              intro e hmem ht
              have hn := liveAt_mono h ht
              have : e ∈ items.filter (fun item => liveAt item.expires now) :=
                List.mem_filter.mpr ⟨hmem, hn⟩
              rw [List.isEmpty_iff.mp he] at this
              exact absurd this (List.not_mem_nil e)
            simp [hnil]
          · rw [Bool.not_eq_true] at he
            simp only [sweep, hk, he, if_false]
            have : (items.filter (fun item => liveAt item.expires now)).filter
                (fun item => liveAt item.expires t) =
                items.filter (fun item => liveAt item.expires t) := by
              rw [List.filter_filter]
              apply List.filter_congr
              intro e hmem
              by_cases hl : liveAt e.expires t = true
              · simp [hl, liveAt_mono h hl]
              · rw [Bool.not_eq_true] at hl
                simp [hl]
            simp [this]

theorem list_push {α : Type} (st : CState α) (k : String) (v : α)
    (ttl : Option Int) (now q : Int) :
    list (push st k v ttl now) k q =
      list st k q ++
        (if liveAt (mkExpires ttl now) q = true then [v] else []) := by
  cases hk : st.data k with
  | none =>
      simp only [push, list, scheduleWrite_data, dset_same, hk]
      split <;> simp_all [List.filter]
  | some s =>
      cases s with
      | scalar e =>
          simp only [push, list, scheduleWrite_data, dset_same, hk]
          split <;> simp_all [List.filter]
      | array items =>
          simp only [push, list, scheduleWrite_data, dset_same, hk,
            List.filter_append]
          split <;> simp_all [List.filter]

/-- C3: as stated the claim fails: with `w = 5` and `ttl = -5` the computed
`expires` is `0`, which is falsy, so `get` still returns the value at a
query time `≥ expires`. -/
theorem c3_counterexample : ¬ specTtlExpiry := by
  intro h
  have h2 := h 7 5 (-5) 100 (by norm_num)
  exact absurd h2 (by decide)

/-- C3 (amended): for an entry written with finite ttl `t` at time `w`,
provided the computed expiration `w + t` is nonzero, `get` returns the
value strictly before `w + t` and absent at or after it, `list` after
`push` appends the value exactly when the query time is strictly before
`w + t`, and running `save` at any time `≤` the query time changes neither
the result of `get` after `set` nor the result of `list` after `push`. -/
theorem c3_ttl_monotonicity :
    ∀ (st : CState Int) (k : String) (v w t q : Int), w + t ≠ 0 →
      (q < w + t → get (set st k v (some t) w) k q = some v) ∧
      (w + t ≤ q → get (set st k v (some t) w) k q = none) ∧
      (∀ ws, ws ≤ q →
        get (save (set st k v (some t) w) ws) k q =
          get (set st k v (some t) w) k q) ∧
      (list (push st k v (some t) w) k q =
        list st k q ++ (if q < w + t then [v] else [])) ∧
      (∀ ws, ws ≤ q →
        list (save (push st k v (some t) w) ws) k q =
          list (push st k v (some t) w) k q) := by
  intro st k v w t q hne
  have hdata : (set st k v (some t) w).data k =
      some (Slot.scalar (CacheEntry.mk v (some (w + t)))) := by
    simp [set, _set, scheduleWrite_data, dset_same, mkExpires]
  refine ⟨?_, ?_, ?_, ?_, ?_⟩
  · intro hlt
    have hl : liveAt (some (w + t)) q = true := by
      rw [liveAt_some_iff]
      omega
    simp [get, hdata, hl]
  · intro hle
    have hl : liveAt (some (w + t)) q = false := by
      rw [Bool.eq_false_iff, Ne, liveAt_some_iff]
      omega
    simp [get, hdata, hl]
  · intro ws hws
    exact get_sweep_eq (save (set st k v (some t) w) ws)
      (set st k v (some t) w) ws q hws rfl k
  · rw [list_push]
    by_cases hq : q < w + t
    · have hl : liveAt (some (w + t)) q = true := by
        rw [liveAt_some_iff]
        omega
      simp [mkExpires, hl, hq]
    · have hl : liveAt (some (w + t)) q = false := by
        rw [Bool.eq_false_iff, Ne, liveAt_some_iff]
        omega
      simp [mkExpires, hl, hq]
  · intro ws hws
    exact list_sweep_eq (save (push st k v (some t) w) ws)
      (push st k v (some t) w) ws q hws rfl k

theorem c3_witness :
    (5 : Int) + 3 ≠ 0 ∧
    get (set (initState Int) "k" (7 : Int) (some 3) 5) "k" 6 = some 7 ∧
    get (set (initState Int) "k" (7 : Int) (some 3) 5) "k" 8 = none ∧
    list (save (push (initState Int) "k" (7 : Int) (some 3) 5) 6) "k" 6 =
      list (push (initState Int) "k" (7 : Int) (some 3) 5) "k" 6 :=
  ⟨by norm_num,
   (c3_ttl_monotonicity (initState Int) "k" 7 5 3 6 (by norm_num)).1
     (by norm_num),
   (c3_ttl_monotonicity (initState Int) "k" 7 5 3 8 (by norm_num)).2.1
     (by norm_num),
   (c3_ttl_monotonicity (initState Int) "k" 7 5 3 6
     (by norm_num)).2.2.2.2 6 (le_refl 6)⟩

/-- C9: `save` at time `now` writes the swept mapping to the file, and a
store constructed from that file returns, at any query time `≥ now`, the
same `get` and `list` results on every key as the original store. -/
theorem c9_round_trip :
    ∀ (st : CState Int) (now t : Int), now ≤ t →
      (save st now).file = some (sweep st.data now) ∧
      ∀ k, get (loadConstruct (sweep st.data now)) k t = get st k t ∧
           list (loadConstruct (sweep st.data now)) k t = list st k t := by
  intro st now t h
  exact ⟨rfl, fun k =>
    ⟨get_sweep_eq (loadConstruct (sweep st.data now)) st now t h rfl k,
     list_sweep_eq (loadConstruct (sweep st.data now)) st now t h rfl k⟩⟩

theorem c9_witness :
    (5 : Int) ≤ 7 ∧
    get (loadConstruct
        (sweep (set (initState Int) "k" (3 : Int) (some 10) 0).data 5))
      "k" 7 =
      get (set (initState Int) "k" (3 : Int) (some 10) 0) "k" 7 :=
  ⟨by norm_num,
   ((c9_round_trip (set (initState Int) "k" (3 : Int) (some 10) 0) 5 7
     (by norm_num)).2 "k").1⟩

/-- C10: an entry whose `expires` field is present and equal to `0` is
treated as never expiring: `get` returns its value at every time, `list`
includes its value at every time, and `save` keeps it (the expiration
checks test `expires` for truthiness first, and `0` is falsy). -/
theorem c10_zero_expires_immortal :
    ∀ (st : CState Int) (k : String) (now : Int),
      (∀ v, st.data k = some (Slot.scalar (CacheEntry.mk v (some 0))) →
        get st k now = some v ∧
        (save st now).data k =
          some (Slot.scalar (CacheEntry.mk v (some 0)))) ∧
      (∀ items e, st.data k = some (Slot.array items) → e ∈ items →
        e.expires = some 0 →
        e.value ∈ list st k now ∧
        ∃ items2, (save st now).data k = some (Slot.array items2) ∧
          e ∈ items2) := by
  intro st k now
  constructor
  · intro v h
    constructor
    · simp [get, h, liveAt]
    · simp [save, sweep, h, staleScalarAt]
  · intro items e h hmem hx
    have hlive : liveAt e.expires now = true := by
      rw [hx]
      simp [liveAt]
    have hmem2 : e ∈ items.filter (fun item => liveAt item.expires now) :=
      List.mem_filter.mpr ⟨hmem, hlive⟩
    constructor
    · simp only [list, h]
      exact List.mem_map.mpr ⟨e, hmem2, rfl⟩
    · refine ⟨items.filter (fun item => liveAt item.expires now), ?_, hmem2⟩
      have hne : (items.filter
          (fun item => liveAt item.expires now)).isEmpty = false := by
        rw [List.isEmpty_eq_false_iff_exists_mem]
        exact ⟨e, hmem2⟩
      simp [save, sweep, h, hne]

theorem c10_witness :
    get (set (initState Int) "k" (9 : Int) (some (-4)) 4) "k" 1000 = some 9 ∧
    (9 : Int) ∈ list (push (initState Int) "k" (9 : Int) (some (-4)) 4)
      "k" 1000 :=
  ⟨((c10_zero_expires_immortal (set (initState Int) "k" (9 : Int)
      (some (-4)) 4) "k" 1000).1 9 (by decide)).1,
   ((c10_zero_expires_immortal (push (initState Int) "k" (9 : Int)
      (some (-4)) 4) "k" 1000).2 [CacheEntry.mk 9 (some 0)]
      (CacheEntry.mk 9 (some 0)) (by decide) (by decide) rfl).1⟩

theorem foldl_dset_eq {α : Type} (entries : List (String × α))
    (ttl : Option Int) (now : Int) (d : Dict α) (k : String) :
    (entries.foldl
      (fun d2 kv => dset d2 kv.1
        (some (Slot.scalar (CacheEntry.mk kv.2 (mkExpires ttl now))))) d) k =
      match lookupLast entries k with
      | some v => some (Slot.scalar (CacheEntry.mk v (mkExpires ttl now)))
      | none => d k := by
  induction entries generalizing d with
  | nil => rfl
  | cons kv rest ih =>
      rw [List.foldl_cons, ih]
      cases hl : lookupLast rest k with
      | some v => simp [lookupLast, hl]
      | none =>
          simp only [lookupLast, hl]
          by_cases hk : k = kv.1
          · simp [dset, hk]
          · simp [dset, hk]

/-- C5: when the backing file is absent, the constructor starts from the
empty mapping, stores one scalar entry with the default ttl per key of the
initial data (absent keys stay absent), saves synchronously, and so the
file is written before the constructor returns. -/
theorem c5_fresh_construct :
    ∀ (entries : List (String × Int)) (ttl : Option Int) (now : Int),
      (newConstruct entries ttl now).file.isSome = true ∧
      (newConstruct entries ttl now).file =
        some (sweep (seedData entries ttl now) now) ∧
      (newConstruct entries ttl now).data =
        sweep (seedData entries ttl now) now ∧
      ∀ k, seedData entries ttl now k =
        (lookupLast entries k).map
          (fun v => Slot.scalar (CacheEntry.mk v (mkExpires ttl now))) := by
  intro entries ttl now
  refine ⟨rfl, rfl, rfl, fun k => ?_⟩
  show (entries.foldl
      (fun d2 kv => dset d2 kv.1
        (some (Slot.scalar (CacheEntry.mk kv.2 (mkExpires ttl now)))))
      (emptyDict Int)) k = _
  rw [foldl_dset_eq]
  cases lookupLast entries k <;> rfl

theorem c5_witness :
    (newConstruct [("a", (1 : Int))] none 0).file.isSome = true ∧
    seedData [("a", (1 : Int))] none 0 "a" =
      some (Slot.scalar (CacheEntry.mk 1 none)) := by
  refine ⟨(c5_fresh_construct [("a", 1)] none 0).1, ?_⟩
  have h := (c5_fresh_construct [("a", 1)] none 0).2.2.2 "a"
  simpa [lookupLast, mkExpires] using h

/-- C6: a parse error of an existing backing file propagates out of the
constructor unchanged (construction fails, no store is created), while a
successfully parsed mapping is installed verbatim — no expired entry is
purged at load time and no write-back is pending. -/
theorem c6_load_construct :
    (∀ e : String,
      constructFromFile (Except.error e : Except String (Dict Int)) =
        Except.error e) ∧
    (∀ d : Dict Int,
      constructFromFile (Except.ok d) = Except.ok (loadConstruct d) ∧
      (loadConstruct d).data = d ∧ (loadConstruct d).pending = 0) :=
  ⟨fun _ => rfl, fun _ => ⟨rfl, rfl, rfl⟩⟩

theorem c6_witness :
    constructFromFile (Except.error "bad" : Except String (Dict Int)) =
      Except.error "bad" ∧
    (loadConstruct c2CexDict).data = c2CexDict :=
  ⟨c6_load_construct.1 "bad", (c6_load_construct.2 c2CexDict).2.1⟩

theorem scheduleWrite_pending_le {α : Type} (st : CState α)
    (h : st.pending ≤ 1) : (scheduleWrite st).pending ≤ 1 := by
  unfold scheduleWrite
  split
  · exact le_refl 1
  · exact h

theorem step_pending_le {α : Type} [DecidableEq α] (st : CState α)
    (op : Op α) (h : st.pending ≤ 1) : (step st op).pending ≤ 1 := by
  cases op with
  | opGet k now => exact h
  | opSet k v ttl now => exact scheduleWrite_pending_le _ h
  | opList k now => exact h
  | opPush k v ttl now => exact scheduleWrite_pending_le _ h
  | opPull k m =>
      show (pull st k m).pending ≤ 1
      unfold pull
      cases st.data k with
      | none => exact h
      | some s =>
          cases s with
          | scalar e => exact h
          | array items => exact scheduleWrite_pending_le _ h
  | opDelete k => exact scheduleWrite_pending_le _ h
  | opClear => exact scheduleWrite_pending_le _ h
  | opSave now => exact Nat.zero_le 1

/-- C7: at most one write-back is ever pending: starting from a state with
at most one pending timer, any sequence of public operations leaves at most
one pending timer; `save` cancels the pending timer and clears the flag,
`scheduleWrite` on a state with a pending timer does not create a second
one, and on a cleared state a mutation schedules exactly one. -/
theorem c7_single_pending :
    (∀ (st : CState Int) (ops : List (Op Int)), st.pending ≤ 1 →
      (run st ops).pending ≤ 1) ∧
    ((initState Int).pending = 0) ∧
    (∀ (st : CState Int) (now : Int), (save st now).pending = 0) ∧
    (∀ st : CState Int, st.pending = 1 → (scheduleWrite st).pending = 1) ∧
    (∀ st : CState Int, st.pending = 0 → (scheduleWrite st).pending = 1) := by
  refine ⟨?_, rfl, fun st now => rfl, ?_, ?_⟩
  · intro st ops
    induction ops generalizing st with
    | nil => exact fun h => h
    | cons op rest ih =>
        intro h
        rw [run, List.foldl_cons]
        exact ih (step st op) (step_pending_le st op h)
  · intro st h
    unfold scheduleWrite
    split
    · rfl
    · exact h
  · intro st h
    unfold scheduleWrite
    rw [if_pos h]

theorem c7_witness :
    (initState Int).pending ≤ 1 ∧
    (run (initState Int)
      [Op.opSet "a" 1 none 0, Op.opPush "a" 2 none 1, Op.opSave 2,
       Op.opPull "a" (Matcher.lit 2)]).pending ≤ 1 :=
  ⟨by decide,
   c7_single_pending.1 (initState Int)
     [Op.opSet "a" 1 none 0, Op.opPush "a" 2 none 1, Op.opSave 2,
      Op.opPull "a" (Matcher.lit 2)] (by decide)⟩

/-- C8: `get` and `list` return the state unchanged (they only read
`this.data`), while `save` does remove stale data in memory: a scalar entry
with truthy `expires < now` is deleted, and every array slot is either
dropped or left holding only entries live at sweep time. -/
theorem c8_reads_pure :
    (∀ (st : CState Int) (k : String) (now : Int),
      (getOp st k now).2 = st ∧ (listOp st k now).2 = st) ∧
    (∀ (st : CState Int) (k : String) (now x : Int) (e : CacheEntry Int),
      st.data k = some (Slot.scalar e) → e.expires = some x → x ≠ 0 →
      x < now → (save st now).data k = none) ∧
    (∀ (st : CState Int) (k : String) (now : Int)
        (items : List (CacheEntry Int)),
      st.data k = some (Slot.array items) →
        (save st now).data k = none ∨
        ∃ items2, (save st now).data k = some (Slot.array items2) ∧
          ∀ e ∈ items2, liveAt e.expires now = true) := by
  refine ⟨fun st k now => ⟨rfl, rfl⟩, ?_, ?_⟩
  · intro st k now x e h hx hx0 hlt
    have hs : staleScalarAt e.expires now = true := by
      rw [hx]
      simp [staleScalarAt]
      omega
    simp [save, sweep, h, hs]
  · intro st k now items h
    by_cases he : (items.filter
        (fun item => liveAt item.expires now)).isEmpty = true
    · left
      simp [save, sweep, h, he]
    · right
      rw [Bool.not_eq_true] at he
      refine ⟨items.filter (fun item => liveAt item.expires now), ?_, ?_⟩
      · simp [save, sweep, h, he]
      · intro e hmem
        simpa using (List.mem_filter.mp hmem).2

theorem c8_witness :
    (save (set (initState Int) "k" (1 : Int) (some 1) 0) 5).data "k" =
      none :=
  c8_reads_pure.2.1 (set (initState Int) "k" (1 : Int) (some 1) 0) "k" 5 1
    (CacheEntry.mk 1 (some 1)) (by decide) rfl (by decide) (by decide)

end BoringCache
